import Mathlib

/-!
Verification of `prepare_and_send_email.py` (email_notif_msmtp).

Strings are modelled as `List Char`.  Python's `re.findall(r'@(\w+)@', t)`
is modelled by a left-to-right, non-overlapping scan (`findall`); `str.replace`
by `replaceAll` (leftmost, non-overlapping, all occurrences; the patterns used
by the program are always of the form `@key@`, hence non-empty); the operator
`in` by `containsSub`; `str.strip()` by `pyStrip`.  `\w` is modelled on its
ASCII fragment (alphanumeric or underscore).  Keyword arguments are modelled as
an association list in argument order (CPython dicts preserve insertion order).
Effects (file system, subprocess, argument parsing) are modelled by oracle
fields of `MainEnv`; exceptions by `Except` with the inductive `PyErr` playing
the role of the raised exception object (`str(e)` is its payload).
-/

deriving instance DecidableEq for Except

/-- ASCII fragment of Python's regex class `\w`: letters, digits, underscore. -/
def isWordChar (c : Char) : Bool := c.isAlphanum || c = '_'

/-- The literal pattern `f'@{key}@'` built by `safe_substitute`. -/
def tok (k : List Char) : List Char := '@' :: (k ++ ['@'])

/-- State machine for `re.findall(r'@(\w+)@', ·)`: `none` means "not inside a
candidate token", `some buf` means "an `@` was seen, `buf` holds the word
characters read since".  A successful match consumes its closing `@`
(non-overlapping scan), which then immediately opens the next candidate only
via a fresh `@`. -/
def findallAux : Option (List Char) → List Char → List (List Char)
  | _, [] => []
  | none, c :: s => if c = '@' then findallAux (some []) s else findallAux none s
  | some buf, c :: s =>
      if isWordChar c then findallAux (some (buf ++ [c])) s
      else if c = '@' then
        if buf = [] then findallAux (some []) s
        else buf :: findallAux none s
      else findallAux none s

/-- `re.findall(r'@(\w+)@', t)`: the captured names, in match order. -/
def findall (t : List Char) : List (List Char) := findallAux none t

/-- Python's substring test `pat in s`. -/
def containsSub (pat : List Char) : List Char → Bool
  | [] => pat.isPrefixOf []
  | c :: s => pat.isPrefixOf (c :: s) || containsSub pat s

/-- Fuelled worker for `str.replace`: leftmost, non-overlapping, replaces all
occurrences.  The program only ever replaces non-empty patterns `@key@`, and
for those a unit of fuel per consumed character suffices. -/
def replaceAllGo (pat rep : List Char) : Nat → List Char → List Char
  | _, [] => []
  | 0, s => s
  | fuel + 1, c :: s =>
      if pat ≠ [] ∧ pat.isPrefixOf (c :: s) then
        rep ++ replaceAllGo pat rep fuel ((c :: s).drop pat.length)
      else c :: replaceAllGo pat rep fuel s

/-- `s.replace(pat, rep)` for the non-empty patterns used by the program. -/
def replaceAll (s pat rep : List Char) : List Char := replaceAllGo pat rep s.length s

/-- Python's `str.strip()` on its ASCII whitespace. -/
def isPySpace (c : Char) : Bool :=
  c = ' ' || c = '\t' || c = '\n' || c = '\r' || c = '\x0b' || c = '\x0c'

/-- `str.strip()`: strip leading and trailing whitespace. -/
def pyStrip (s : List Char) : List Char :=
  ((s.dropWhile isPySpace).reverse.dropWhile isPySpace).reverse

/-- The exceptions the script can raise, with their payloads (`str(e)` shows
the payload).  `osError` stands for the `OSError`-family exceptions that
`subprocess.Popen` raises (e.g. `FileNotFoundError` when the executable is
absent), which are *not* subclasses of `subprocess.SubprocessError`. -/
inductive PyErr where
  | noPlaceholders
  | templateMissing (missing : Finset (List Char))
  | missingValues (missing : Finset (List Char))
  | fileNotFound (path : List Char)
  | readError (msg : List Char)
  | msmtpConfigNotFound (path : List Char)
  | osError (msg : List Char)
  | sendFailed (err : Option (List Char))
  deriving DecidableEq

/-- `required_placeholders = {'hostname', 'topic', 'body'}`. -/
def requiredPlaceholders : Finset (List Char) :=
  {("hostname").data, ("topic").data, ("body").data}

/-- The `EmailTemplate` object: it stores the raw template string. -/
structure EmailTemplate where
  template : List Char
  deriving DecidableEq

/-- `EmailTemplate.__init__` together with `_validate_template`:
collect the distinct placeholder names, fail on an empty set
("no valid placeholders") or on a non-empty `required - found` set. -/
def mkEmailTemplate (t : List Char) : Except PyErr EmailTemplate :=
  let found : Finset (List Char) := (findall t).toFinset
  if found = ∅ then .error .noPlaceholders
  else if requiredPlaceholders \ found ≠ ∅ then
    .error (.templateMissing (requiredPlaceholders \ found))
  else .ok ⟨t⟩

/-- One iteration of the replacement loop of `safe_substitute`:
`if pattern in result: result = result.replace(pattern, str(value))`. -/
def substStep (result : List Char) (kv : List Char × List Char) : List Char :=
  if containsSub (tok kv.1) result then replaceAll result (tok kv.1) kv.2 else result

/-- The whole replacement loop (`for key, value in kwargs.items()`). -/
def substFold (t : List Char) (kwargs : List (List Char × List Char)) : List Char :=
  kwargs.foldl substStep t

/-- `EmailTemplate.safe_substitute`: re-validate that the supplied keys cover
the placeholders recomputed from the live template text, then run the
replacement loop. -/
def safe_substitute (t : List Char) (kwargs : List (List Char × List Char)) :
    Except PyErr (List Char) :=
  let required_values : Finset (List Char) := (findall t).toFinset
  let missing_values := required_values \ (kwargs.map Prod.fst).toFinset
  if missing_values ≠ ∅ then .error (.missingValues missing_values)
  else .ok (substFold t kwargs)

/-- Outcome of the `msmtp` child process, as an oracle: either it completed
with an exit status and captured streams, or `Popen`/`communicate` raised a
`subprocess.SubprocessError`, or it raised an `OSError`-family exception
(which the script's `except subprocess.SubprocessError` clause does *not*
catch). -/
inductive ProcOutcome where
  | completed (returncode : Int) (stdout stderr : List Char)
  | subprocessError (msg : List Char)
  | osError (msg : List Char)
  deriving DecidableEq

/-- `send_email(content)`.  `cfgExists` is the oracle for
`os.path.isfile(msmtp_config)`, `o` the oracle for the spawned process.
A `.ok` value is the function's `(success, error)` return pair; an `.error`
is an exception propagating out of `send_email`. -/
def send_email (_content : List Char) (cfgPath : List Char) (cfgExists : Bool)
    (o : ProcOutcome) : Except PyErr (Bool × Option (List Char)) :=
  if !cfgExists then .error (.msmtpConfigNotFound cfgPath)
  else
    match o with
    | .completed rc _stdout stderr =>
        if rc ≠ 0 then .ok (false, some (pyStrip stderr))
        else .ok (true, none)
    | .subprocessError m => .ok (false, some m)
    | .osError m => .error (.osError m)
  -- the unused `content` argument mirrors `communicate(input=content)`

/-- `read_template(template_path)`.  `isFile` is the oracle for
`os.path.isfile`, `readResult` for `open(...).read()` (`.error e` being an
`IOError`/`UnicodeDecodeError` with text `e`).  A `TemplateError` raised by the
`EmailTemplate` constructor is not an `IOError`/`UnicodeDecodeError`, so it
propagates unchanged. -/
def read_template (path : List Char) (isFile : Bool)
    (readResult : Except (List Char) (List Char)) : Except PyErr EmailTemplate :=
  if !isFile then .error (.fileNotFound path)
  else
    match readResult with
    | .error e => .error (.readError e)
    | .ok contents => mkEmailTemplate contents

/-- Parsed CLI arguments (`--topic` and `--body` required, `--hostname`
optional with default `None`). -/
structure CliArgs where
  topic : List Char
  body : List Char
  hostname : Option (List Char)
  deriving DecidableEq

/-- `args.hostname or get_hostname()`: Python's `or` takes the fallback both
for `None` and for the falsy empty string. -/
def resolveHostname (a : Option (List Char)) (sys : List Char) : List Char :=
  match a with
  | some h => if h = [] then sys else h
  | none => sys

/-- Oracle environment for one program run.  `parseResult = .error code`
models `argparse` calling `sys.exit(code)` (a `SystemExit`, which
`except Exception` does not catch); `sysHostname` models `get_hostname()`;
the remaining fields are the file-system and subprocess oracles. -/
structure MainEnv where
  parseResult : Except Nat CliArgs
  sysHostname : List Char
  scriptDir : List Char
  templateIsFile : Bool
  templateRead : Except (List Char) (List Char)
  cfgHome : List Char
  cfgExists : Bool
  procOutcome : ProcOutcome

/-- `os.path.join(script_dir, 'template.txt')`. -/
def templatePath (env : MainEnv) : List Char := env.scriptDir ++ ("/template.txt").data

/-- `os.path.expanduser('~/.msmtprc')`. -/
def msmtpConfigPath (env : MainEnv) : List Char := env.cfgHome ++ ("/.msmtprc").data

/-- The body of `main`'s `try` block, after argument parsing: read the
template, substitute, send; a returned `(False, error)` pair is escalated to
`RuntimeError(f"Failed to send email: {error}")`. -/
def mainTry (env : MainEnv) (args : CliArgs) : Except PyErr Unit :=
  match read_template (templatePath env) env.templateIsFile env.templateRead with
  | .error e => .error e
  | .ok tpl =>
    match safe_substitute tpl.template
        [(("hostname").data, resolveHostname args.hostname env.sysHostname),
         (("topic").data, args.topic),
         (("body").data, args.body)] with
    | .error e => .error e
    | .ok content =>
      match send_email content (msmtpConfigPath env) env.cfgExists env.procOutcome with
      | .error e => .error e
      | .ok res => if res.1 then .ok () else .error (.sendFailed res.2)

/-- `sys.exit(main())`: the pair is (process exit status, optional uncaught
`Exception`).  A `some e` second component records that `main`'s handler ran,
logging the error and printing the one line `Error: {str(e)}` to stderr; `none`
means no such line was printed.  When `argparse` raises `SystemExit(code)`, the
`except Exception` clause does not catch it and the interpreter exits with
`code` (no `Error:` line). -/
def mainRun (env : MainEnv) : Nat × Option PyErr :=
  match env.parseResult with
  | .error code => (code, none)
  | .ok args =>
    match mainTry env args with
    | .ok _ => (0, none)
    | .error e => (1, some e)

/-! ### Specification-side definitions

These are written from the specification's wording, to be compared with the
code-side definitions above. -/

/-- Whether a token `@name@` (non-empty word-character name) starts at
position `i` of `t`; returns the name.  Written from the spec's phrase
"the set of distinct names matching `@<word-characters>@` in T". -/
def tokenAt (t : List Char) (i : Nat) : Option (List Char) :=
  match t.drop i with
  | '@' :: r =>
    let w := r.takeWhile isWordChar
    if w ≠ [] ∧ (r.drop w.length).head? = some '@' then some w else none
  | _ => none

/-- All distinct names whose token `@name@` occurs (at any position, overlaps
included) in `t`: the spec-side reading of "the distinct names appearing
in T". -/
def namesAppearing (t : List Char) : Finset (List Char) :=
  ((List.range t.length).filterMap (tokenAt t)).toFinset

/-- Simultaneous single-pass replacement, written from the spec's phrase
"for each provided key, every exact occurrence of `@key@` in the template is
replaced by the string form of its value": scan the template left to right;
where the token of a provided key starts, emit that key's value and skip the
token; the emitted value is not rescanned. -/
def simultaneousGo (m : List (List Char × List Char)) : Nat → List Char → List Char
  | _, [] => []
  | 0, s => s
  | fuel + 1, c :: s =>
    match m.find? (fun kv => (tok kv.1).isPrefixOf (c :: s)) with
    | some kv => kv.2 ++ simultaneousGo m fuel ((c :: s).drop (tok kv.1).length)
    | none => c :: simultaneousGo m fuel s

/-- Entry point of the simultaneous replacement scan. -/
def simultaneousSubst (m : List (List Char × List Char)) (t : List Char) : List Char :=
  simultaneousGo m t.length t

/-! ### Structured templates

A template shape is a leading literal `f` followed by pairs
`(key, trailing literal)`; it denotes the string
`f ++ @k₁@ ++ l₁ ++ @k₂@ ++ l₂ ++ …`.  On shapes whose literals are `@`-free
the intended "replace every token by its key's value" reading is definable
directly (`renderShape`), and we prove the code agrees with it. -/

/-- Denotation of the pair list of a shape. -/
def flatPairs (ps : List (List Char × List Char)) : List Char :=
  (ps.map (fun p => tok p.1 ++ p.2)).flatten

/-- Denotation of a whole shape. -/
def flattenShape (f : List Char) (ps : List (List Char × List Char)) : List Char :=
  f ++ flatPairs ps

/-- Effect of one `str.replace(tok k, v)` on the pair list of a shape:
pairs keyed `k` dissolve, their value and trailing literal merging leftwards.
Returns the dissolved prefix and the surviving pairs. -/
def goPairs (k v : List Char) : List (List Char × List Char) →
    List Char × List (List Char × List Char)
  | [] => ([], [])
  | (k', l) :: rest =>
    let r := goPairs k v rest
    if k' = k then (v ++ l ++ r.1, r.2) else ([], (k', l ++ r.1) :: r.2)

/-- First value bound to `key` in the association list (the unique one when
keys are distinct, as Python keyword arguments are). -/
def lookupVal : List (List Char × List Char) → List Char → List Char
  | [], _ => []
  | (k, v) :: rest, key => if k = key then v else lookupVal rest key

/-- Spec-side rendering of a shape's pair list: each token replaced by its
key's value, literals untouched, values spliced verbatim. -/
def renderPairs (m : List (List Char × List Char))
    (ps : List (List Char × List Char)) : List Char :=
  (ps.map (fun p => lookupVal m p.1 ++ p.2)).flatten

/-- Spec-side rendering of a whole shape. -/
def renderShape (m : List (List Char × List Char)) (f : List Char)
    (ps : List (List Char × List Char)) : List Char :=
  f ++ renderPairs m ps

/-- A well-formed placeholder name: non-empty, word characters only. -/
def wordKey (k : List Char) : Prop := k ≠ [] ∧ ∀ c ∈ k, isWordChar c

/-- A string without `@`. -/
def atFree (l : List Char) : Prop := '@' ∉ l

/-- A string containing at least one non-word character. -/
def hasNonWord (l : List Char) : Prop := ∃ c ∈ l, ¬ isWordChar c

instance (k : List Char) : Decidable (wordKey k) := by unfold wordKey; infer_instance

instance (l : List Char) : Decidable (atFree l) := by unfold atFree; infer_instance

instance (l : List Char) : Decidable (hasNonWord l) := by unfold hasNonWord; infer_instance

/-! ### Lemmas about `replaceAll` -/

theorem replaceAllGo_fuel (pat rep : List Char) :
    ∀ f1 (s : List Char), s.length ≤ f1 → ∀ f2, s.length ≤ f2 →
      replaceAllGo pat rep f1 s = replaceAllGo pat rep f2 s := by
  intro f1
  induction f1 with
  | zero =>
    intro s hs f2 _
    have : s = [] := List.eq_nil_of_length_eq_zero (Nat.le_zero.mp hs)
    subst this
    cases f2 <;> rfl
  | succ fuel ih =>
    intro s hs f2 hs2
    cases s with
    | nil => cases f2 <;> rfl
    | cons c s' =>
      cases f2 with
      | zero => simp at hs2
      | succ f2' =>
        simp only [replaceAllGo]
        by_cases hp : pat ≠ [] ∧ pat.isPrefixOf (c :: s')
        · rw [if_pos hp, if_pos hp]
          have hlen : ((c :: s').drop pat.length).length ≤ s'.length := by
            have hpat : 1 ≤ pat.length := by
              cases pat with
              | nil => exact absurd rfl hp.1
              | cons _ _ => simp
            simp only [List.length_drop, List.length_cons]
            omega
          have h1 : ((c :: s').drop pat.length).length ≤ fuel :=
            le_trans hlen (Nat.lt_succ_iff.mp (Nat.lt_of_lt_of_le (Nat.lt_succ_self _)
              (by simpa using hs)))
          have h2 : ((c :: s').drop pat.length).length ≤ f2' :=
            le_trans hlen (Nat.lt_succ_iff.mp (Nat.lt_of_lt_of_le (Nat.lt_succ_self _)
              (by simpa using hs2)))
          rw [ih _ h1 _ h2]
        · rw [if_neg hp, if_neg hp]
          have h1 : s'.length ≤ fuel := by simpa using hs
          have h2 : s'.length ≤ f2' := by simpa using hs2
          rw [ih _ h1 _ h2]

theorem replaceAll_nil (pat rep : List Char) : replaceAll [] pat rep = [] := rfl

theorem replaceAll_cons_pos {pat : List Char} (c : Char) (s rep : List Char)
    (h1 : pat ≠ []) (h2 : pat.isPrefixOf (c :: s)) :
    replaceAll (c :: s) pat rep = rep ++ replaceAll ((c :: s).drop pat.length) pat rep := by
  show replaceAllGo pat rep (c :: s).length (c :: s) = _
  simp only [List.length_cons, replaceAllGo, if_pos (And.intro h1 h2)]
  congr 1
  apply replaceAllGo_fuel
  · have hpat : 1 ≤ pat.length := by
      cases pat with
      | nil => exact absurd rfl h1
      | cons _ _ => simp
    simp only [List.length_drop, List.length_cons]
    omega
  · exact le_refl _

theorem replaceAll_cons_neg {pat : List Char} (c : Char) (s rep : List Char)
    (h : ¬(pat ≠ [] ∧ pat.isPrefixOf (c :: s))) :
    replaceAll (c :: s) pat rep = c :: replaceAll s pat rep := by
  show replaceAllGo pat rep (c :: s).length (c :: s) = _
  simp only [List.length_cons, replaceAllGo, if_neg h]
  rfl

theorem replaceAll_append_left (p0 : Char) (pr rep : List Char) :
    ∀ l s : List Char, p0 ∉ l →
      replaceAll (l ++ s) (p0 :: pr) rep = l ++ replaceAll s (p0 :: pr) rep := by
  intro l
  induction l with
  | nil => intro s _; rfl
  | cons c l' ih =>
    intro s hl
    have hc : c ≠ p0 := fun hc => hl (hc ▸ List.mem_cons_self c l')
    have hnp : ¬((p0 :: pr) ≠ [] ∧ (p0 :: pr).isPrefixOf (c :: (l' ++ s))) := by
      rintro ⟨-, hpre⟩
      rw [List.isPrefixOf_cons₂, Bool.and_eq_true, beq_iff_eq] at hpre
      exact hc hpre.1.symm
    rw [List.cons_append, replaceAll_cons_neg c (l' ++ s) rep hnp,
      ih s (fun hm => hl (List.mem_cons_of_mem _ hm))]
    simp

theorem replaceAll_of_notMem (p0 : Char) (pr rep : List Char) (s : List Char)
    (h : p0 ∉ s) : replaceAll s (p0 :: pr) rep = s := by
  have := replaceAll_append_left p0 pr rep s [] h
  simpa [replaceAll_nil] using this

/-! ### Lemmas about `containsSub` and the loop step -/

theorem replaceAll_of_not_containsSub (pat rep : List Char) :
    ∀ s, containsSub pat s = false → replaceAll s pat rep = s := by
  intro s
  induction s with
  | nil => intro _; rfl
  | cons c s' ih =>
    intro h
    simp only [containsSub, Bool.or_eq_false_iff] at h
    have hnp : ¬(pat ≠ [] ∧ pat.isPrefixOf (c :: s')) := by
      rintro ⟨-, hpre⟩
      rw [h.1] at hpre
      exact Bool.false_ne_true hpre
    rw [replaceAll_cons_neg c s' rep hnp, ih h.2]

theorem substStep_eq (res : List Char) (kv : List Char × List Char) :
    substStep res kv = replaceAll res (tok kv.1) kv.2 := by
  unfold substStep
  by_cases h : containsSub (tok kv.1) res
  · rw [if_pos h]
  · rw [if_neg h, replaceAll_of_not_containsSub _ _ _ (Bool.not_eq_true _ ▸ h)]

theorem substFold_cons (t : List Char) (kv : List Char × List Char)
    (m : List (List Char × List Char)) :
    substFold t (kv :: m) = substFold (replaceAll t (tok kv.1) kv.2) m := by
  simp only [substFold, List.foldl_cons, substStep_eq]

/-! ### Prefix analysis: where a token can occur in a shape -/

theorem isWordChar_at : isWordChar '@' = false := by decide

theorem wordKey_not_at {k : List Char} (hk : wordKey k) : '@' ∉ k := by
  intro hm
  have := hk.2 '@' hm
  rw [isWordChar_at] at this
  exact Bool.false_ne_true this

theorem key_prefix_eq :
    ∀ (k k' X : List Char), (∀ c ∈ k, isWordChar c) → (∀ c ∈ k', isWordChar c) →
      (k ++ ['@']) <+: (k' ++ '@' :: X) → k = k' := by
  intro k
  induction k with
  | nil =>
    intro k' X _ hw' hp
    cases k' with
    | nil => rfl
    | cons c k2 =>
      rw [List.nil_append, List.cons_append, List.cons_prefix_cons] at hp
      have hc := hw' c (List.mem_cons_self c k2)
      rw [← hp.1, isWordChar_at] at hc
      exact absurd hc Bool.false_ne_true
  | cons a k2 ih =>
    intro k' X hw hw' hp
    cases k' with
    | nil =>
      rw [List.nil_append, List.cons_append, List.cons_prefix_cons] at hp
      have ha := hw a (List.mem_cons_self a k2)
      rw [hp.1, isWordChar_at] at ha
      exact absurd ha Bool.false_ne_true
    | cons c k2' =>
      rw [List.cons_append, List.cons_append, List.cons_prefix_cons] at hp
      have h2 := ih k2' X (fun x hx => hw x (List.mem_cons_of_mem _ hx))
        (fun x hx => hw' x (List.mem_cons_of_mem _ hx)) hp.2
      rw [hp.1, h2]

theorem lit_prefix_eq :
    ∀ (k l Y : List Char), (∀ c ∈ k, isWordChar c) → atFree l →
      (k ++ ['@']) <+: (l ++ '@' :: Y) → k = l := by
  intro k
  induction k with
  | nil =>
    intro l Y _ hl hp
    cases l with
    | nil => rfl
    | cons c l2 =>
      rw [List.nil_append, List.cons_append, List.cons_prefix_cons] at hp
      exact absurd (hp.1 ▸ List.mem_cons_self c l2) hl
  | cons a k2 ih =>
    intro l Y hw hl hp
    cases l with
    | nil =>
      rw [List.nil_append, List.cons_append, List.cons_prefix_cons] at hp
      have ha := hw a (List.mem_cons_self a k2)
      rw [hp.1, isWordChar_at] at ha
      exact absurd ha Bool.false_ne_true
    | cons c l2 =>
      rw [List.cons_append, List.cons_append, List.cons_prefix_cons] at hp
      have h2 := ih l2 Y (fun x hx => hw x (List.mem_cons_of_mem _ hx))
        (fun hm => hl (List.mem_cons_of_mem _ hm)) hp.2
      rw [hp.1, h2]

theorem not_prefix_atFree (k s : List Char) (h : atFree s) : ¬ (k ++ ['@']) <+: s := by
  intro hp
  exact h (hp.subset (List.mem_append_right k (List.mem_singleton.mpr rfl)))

/-! ### `findall` on shapes -/

theorem findallAux_none_atFree :
    ∀ l rest : List Char, atFree l → findallAux none (l ++ rest) = findallAux none rest := by
  intro l
  induction l with
  | nil => intro rest _; rfl
  | cons c l' ih =>
    intro rest hl
    have hc : ¬(c = '@') := fun hc => hl (hc ▸ List.mem_cons_self c l')
    simp only [List.cons_append, findallAux, if_neg hc]
    exact ih rest (fun hm => hl (List.mem_cons_of_mem _ hm))

theorem findallAux_some_word :
    ∀ w : List Char, (∀ c ∈ w, isWordChar c) → ∀ (buf rest : List Char),
      findallAux (some buf) (w ++ rest) = findallAux (some (buf ++ w)) rest := by
  intro w
  induction w with
  | nil => intro _ buf rest; simp
  | cons c w' ih =>
    intro hw buf rest
    have hc : isWordChar c = true := hw c (List.mem_cons_self c w')
    simp only [List.cons_append, findallAux, if_pos hc]
    rw [List.append_eq, ih (fun x hx => hw x (List.mem_cons_of_mem _ hx)) (buf ++ [c]) rest]
    simp

theorem findallAux_none_tok (k rest : List Char) (hk : wordKey k) :
    findallAux none (tok k ++ rest) = k :: findallAux none rest := by
  show findallAux none ('@' :: ((k ++ ['@']) ++ rest)) = _
  simp only [findallAux, if_pos rfl]
  rw [List.append_assoc, findallAux_some_word k hk.2 [] (['@'] ++ rest)]
  simp [findallAux, isWordChar_at, hk.1]

theorem findall_flatten :
    ∀ (ps : List (List Char × List Char)) (f : List Char), atFree f →
      (∀ p ∈ ps, wordKey p.1 ∧ atFree p.2) →
      findall (flattenShape f ps) = ps.map Prod.fst := by
  intro ps
  induction ps with
  | nil =>
    intro f hf _
    show findallAux none (f ++ flatPairs []) = []
    rw [findallAux_none_atFree f _ hf]
    rfl
  | cons p rest ih =>
    intro f hf hps
    obtain ⟨k, l⟩ := p
    have hk : wordKey k := (hps (k, l) (List.mem_cons_self _ _)).1
    have hl : atFree l := (hps (k, l) (List.mem_cons_self _ _)).2
    show findallAux none (f ++ flatPairs ((k, l) :: rest)) = k :: rest.map Prod.fst
    have hflat : flatPairs ((k, l) :: rest) = tok k ++ (l ++ flatPairs rest) := by
      simp [flatPairs, List.append_assoc]
    rw [hflat, findallAux_none_atFree f _ hf, findallAux_none_tok _ _ hk]
    have := ih l hl (fun q hq => hps q (List.mem_cons_of_mem _ hq))
    show k :: findallAux none (l ++ flatPairs rest) = k :: rest.map Prod.fst
    rw [show findallAux none (l ++ flatPairs rest) = findall (flattenShape l rest) from rfl, this]

/-! ### One `str.replace(tok k, v)` on a shape -/

theorem tok_ne_nil (k : List Char) : tok k ≠ [] := by simp [tok]

theorem dropLast_mono {α : Type} (x : α) (rest : List α) :
    ∀ p ∈ rest.dropLast, p ∈ (x :: rest).dropLast := by
  intro p hp
  cases rest with
  | nil => simp at hp
  | cons r rs =>
    rw [List.dropLast_cons₂]
    exact List.mem_cons_of_mem _ hp

theorem goPairs_nil (k v : List Char) : goPairs k v [] = ([], []) := rfl

theorem replaceAll_append_left_tok (kk rep l s : List Char) (hl : '@' ∉ l) :
    replaceAll (l ++ s) (tok kk) rep = l ++ replaceAll s (tok kk) rep := by
  rw [show tok kk = '@' :: (kk ++ ['@']) from rfl]
  exact replaceAll_append_left '@' _ _ l s hl

theorem goPairs_snd_nil (k v : List Char) :
    ∀ ps, ps = [] → (goPairs k v ps).2 = [] := by
  intro ps h; subst h; rfl

theorem replaceAll_flatPairs (k v : List Char) (hk : wordKey k) :
    ∀ ps : List (List Char × List Char),
      (∀ p ∈ ps, wordKey p.1 ∧ atFree p.2) → (∀ p ∈ ps.dropLast, hasNonWord p.2) →
      replaceAll (flatPairs ps) (tok k) v =
        (goPairs k v ps).1 ++ flatPairs (goPairs k v ps).2 := by
  intro ps
  induction ps with
  | nil => intro _ _; rfl
  | cons p rest ih =>
    intro hps hnw
    obtain ⟨k', l⟩ := p
    have hk' : wordKey k' := (hps (k', l) (List.mem_cons_self _ _)).1
    have hl : atFree l := (hps (k', l) (List.mem_cons_self _ _)).2
    have hrest : ∀ q ∈ rest, wordKey q.1 ∧ atFree q.2 :=
      fun q hq => hps q (List.mem_cons_of_mem _ hq)
    have hnwrest : ∀ q ∈ rest.dropLast, hasNonWord q.2 :=
      fun q hq => hnw q (dropLast_mono _ _ q hq)
    have hflat : flatPairs ((k', l) :: rest) =
        '@' :: ((k' ++ ['@']) ++ (l ++ flatPairs rest)) := by
      simp [flatPairs, tok, List.append_assoc]
    by_cases hkk : k' = k
    · subst hkk
      rw [hflat]
      have hpre : (tok k').isPrefixOf ('@' :: ((k' ++ ['@']) ++ (l ++ flatPairs rest))) := by
        rw [ List.isPrefixOf_iff_prefix]
        exact (List.prefix_append _ _).trans (by rw [tok, List.cons_append, List.append_assoc])
      rw [replaceAll_cons_pos _ _ _ (tok_ne_nil k') hpre]
      have hdrop : ('@' :: ((k' ++ ['@']) ++ (l ++ flatPairs rest))).drop (tok k').length =
          l ++ flatPairs rest := by
        rw [show ('@' :: ((k' ++ ['@']) ++ (l ++ flatPairs rest))) =
          tok k' ++ (l ++ flatPairs rest) from by simp [tok], List.drop_left]
      rw [hdrop, replaceAll_append_left_tok _ _ l _ hl, ih hrest hnwrest]
      show v ++ (l ++ ((goPairs k' v rest).1 ++ flatPairs (goPairs k' v rest).2)) = _
      simp [goPairs, List.append_assoc]
    · rw [hflat]
      have hnp1 : ¬((tok k) ≠ [] ∧
          (tok k).isPrefixOf ('@' :: ((k' ++ ['@']) ++ (l ++ flatPairs rest)))) := by
        rintro ⟨-, hpre⟩
        rw [ List.isPrefixOf_iff_prefix, tok, List.cons_prefix_cons] at hpre
        have : (k ++ ['@']) <+: (k' ++ '@' :: (l ++ flatPairs rest)) := by
          have := hpre.2
          rwa [List.append_assoc, List.singleton_append] at this
        exact hkk (key_prefix_eq k k' _ hk.2 hk'.2 this).symm
      rw [replaceAll_cons_neg _ _ _ hnp1,
        show (k' ++ ['@']) ++ (l ++ flatPairs rest) = k' ++ ('@' :: (l ++ flatPairs rest))
          from by simp [List.append_assoc],
        replaceAll_append_left_tok _ _ k' _ (wordKey_not_at hk')]
      have hnp2 : ¬((tok k) ≠ [] ∧ (tok k).isPrefixOf ('@' :: (l ++ flatPairs rest))) := by
        rintro ⟨-, hpre⟩
        rw [ List.isPrefixOf_iff_prefix, tok, List.cons_prefix_cons] at hpre
        have hpre2 := hpre.2
        cases rest with
        | nil =>
          rw [show flatPairs [] = [] from rfl, List.append_nil] at hpre2
          exact not_prefix_atFree k l hl hpre2
        | cons q r2 =>
          obtain ⟨k2, l2⟩ := q
          have hy : flatPairs ((k2, l2) :: r2) = '@' :: ((k2 ++ ['@']) ++ l2 ++ flatPairs r2) := by
            simp [flatPairs, tok, List.append_assoc]
          rw [hy] at hpre2
          have hkl : k = l := lit_prefix_eq k l _ hk.2 hl hpre2
          have hnwl : hasNonWord l := hnw (k', l) (by rw [List.dropLast_cons₂]; exact List.mem_cons_self _ _)
          obtain ⟨c, hcl, hcw⟩ := hnwl
          exact hcw (hk.2 c (hkl ▸ hcl))
      rw [replaceAll_cons_neg _ _ _ hnp2, replaceAll_append_left_tok _ _ l _ hl,
        ih hrest hnwrest]
      show '@' :: (k' ++ ('@' :: (l ++ ((goPairs k v rest).1 ++ flatPairs (goPairs k v rest).2)))) = _
      simp [goPairs, if_neg hkk, flatPairs, tok, List.append_assoc]

/-! ### Invariant preservation and rendering -/

theorem goPairs_snd_keys (k v : List Char) :
    ∀ ps, ∀ p ∈ (goPairs k v ps).2, p.1 ∈ ps.map Prod.fst ∧ p.1 ≠ k := by
  intro ps
  induction ps with
  | nil => intro p hp; simp [goPairs] at hp
  | cons q rest ih =>
    intro p hp
    obtain ⟨k', l⟩ := q
    by_cases hkk : k' = k
    · rw [show goPairs k v ((k', l) :: rest) = (v ++ l ++ (goPairs k v rest).1, (goPairs k v rest).2)
        from by simp [goPairs, if_pos hkk]] at hp
      have := ih p hp
      exact ⟨List.mem_cons_of_mem _ this.1, this.2⟩
    · rw [show goPairs k v ((k', l) :: rest) =
          ([], (k', l ++ (goPairs k v rest).1) :: (goPairs k v rest).2)
        from by simp [goPairs, if_neg hkk]] at hp
      rcases List.mem_cons.mp hp with h | h
      · subst h; exact ⟨List.mem_cons_self _ _, hkk⟩
      · have := ih p h
        exact ⟨List.mem_cons_of_mem _ this.1, this.2⟩

theorem goPairs_snd_ne_nil (k v : List Char) :
    ∀ ps, (goPairs k v ps).2 ≠ [] → ps ≠ [] := by
  intro ps h hps
  subst hps
  exact h rfl

theorem goPairs_preserve (k v : List Char) (hv : atFree v) :
    ∀ ps, (∀ p ∈ ps, wordKey p.1 ∧ atFree p.2) → (∀ p ∈ ps.dropLast, hasNonWord p.2) →
      (∀ p ∈ (goPairs k v ps).2, wordKey p.1 ∧ atFree p.2) ∧
      (∀ p ∈ (goPairs k v ps).2.dropLast, hasNonWord p.2) ∧
      atFree (goPairs k v ps).1 := by
  intro ps
  induction ps with
  | nil =>
    intro _ _
    refine ⟨?_, ?_, ?_⟩ <;> simp [goPairs, atFree]
  | cons q rest ih =>
    intro hps hnw
    obtain ⟨k', l⟩ := q
    have hk' : wordKey k' := (hps (k', l) (List.mem_cons_self _ _)).1
    have hl : atFree l := (hps (k', l) (List.mem_cons_self _ _)).2
    have hrest : ∀ p ∈ rest, wordKey p.1 ∧ atFree p.2 :=
      fun p hp => hps p (List.mem_cons_of_mem _ hp)
    have hnwrest : ∀ p ∈ rest.dropLast, hasNonWord p.2 :=
      fun p hp => hnw p (dropLast_mono _ _ p hp)
    obtain ⟨ihA, ihB, ihC⟩ := ih hrest hnwrest
    by_cases hkk : k' = k
    · rw [show goPairs k v ((k', l) :: rest) = (v ++ l ++ (goPairs k v rest).1, (goPairs k v rest).2)
        from by simp [goPairs, if_pos hkk]]
      refine ⟨ihA, ihB, ?_⟩
      intro hm
      rcases List.mem_append.mp hm with h | h
      · rcases List.mem_append.mp h with h2 | h2
        · exact hv h2
        · exact hl h2
      · exact ihC h
    · rw [show goPairs k v ((k', l) :: rest) =
          ([], (k', l ++ (goPairs k v rest).1) :: (goPairs k v rest).2)
        from by simp [goPairs, if_neg hkk]]
      refine ⟨?_, ?_, by simp [atFree]⟩
      · intro p hp
        rcases List.mem_cons.mp hp with h | h
        · subst h
          refine ⟨hk', fun hm => ?_⟩
          rcases List.mem_append.mp hm with h2 | h2
          · exact hl h2
          · exact ihC h2
        · exact ihA p h
      · intro p hp
        cases hr2 : (goPairs k v rest).2 with
        | nil => rw [hr2] at hp; simp at hp
        | cons r2h r2t =>
          rw [hr2, List.dropLast_cons₂] at hp
          rcases List.mem_cons.mp hp with h | h
          · subst h
            have hrestne : rest ≠ [] := goPairs_snd_ne_nil k v rest (by rw [hr2]; simp)
            have hlnw : hasNonWord l := by
              apply hnw (k', l)
              cases rest with
              | nil => exact absurd rfl hrestne
              | cons r rs => rw [List.dropLast_cons₂]; exact List.mem_cons_self _ _
            obtain ⟨c, hcl, hcw⟩ := hlnw
            exact ⟨c, List.mem_append_left _ hcl, hcw⟩
          · exact ihB p (by rw [hr2]; exact h)

theorem renderPairs_transfer (k v : List Char) (m' : List (List Char × List Char)) :
    ∀ ps, renderPairs ((k, v) :: m') ps =
      (goPairs k v ps).1 ++ renderPairs m' (goPairs k v ps).2 := by
  intro ps
  induction ps with
  | nil => rfl
  | cons q rest ih =>
    obtain ⟨k', l⟩ := q
    by_cases hkk : k' = k
    · subst hkk
      rw [show goPairs k' v ((k', l) :: rest) =
          (v ++ l ++ (goPairs k' v rest).1, (goPairs k' v rest).2)
        from by simp [goPairs]]
      show (lookupVal ((k', v) :: m') k' ++ l) ++ renderPairs ((k', v) :: m') rest = _
      rw [show lookupVal ((k', v) :: m') k' = v from by simp [lookupVal], ih]
      simp [List.append_assoc]
    · rw [show goPairs k v ((k', l) :: rest) =
          ([], (k', l ++ (goPairs k v rest).1) :: (goPairs k v rest).2)
        from by simp [goPairs, if_neg hkk]]
      show (lookupVal ((k, v) :: m') k' ++ l) ++ renderPairs ((k, v) :: m') rest = _
      have hkv : lookupVal ((k, v) :: m') k' = lookupVal m' k' := by
        show (if k = k' then v else lookupVal m' k') = lookupVal m' k'
        rw [if_neg (Ne.symm hkk)]
      rw [hkv, ih]
      show _ = [] ++ ((lookupVal m' k' ++ (l ++ (goPairs k v rest).1)) ++
        renderPairs m' (goPairs k v rest).2)
      simp [renderPairs, List.append_assoc]

theorem substFold_render :
    ∀ (m : List (List Char × List Char)) (f : List Char) (ps : List (List Char × List Char)),
      atFree f → (∀ p ∈ ps, wordKey p.1 ∧ atFree p.2) →
      (∀ p ∈ ps.dropLast, hasNonWord p.2) →
      (∀ kv ∈ m, wordKey kv.1) → (∀ kv ∈ m.dropLast, atFree kv.2) →
      (∀ p ∈ ps, p.1 ∈ m.map Prod.fst) →
      substFold (flattenShape f ps) m = renderShape m f ps := by
  intro m
  induction m with
  | nil =>
    intro f ps _ _ _ _ _ hcov
    cases ps with
    | nil => simp [substFold, flattenShape, renderShape, flatPairs, renderPairs]
    | cons p rest => exact absurd (hcov p (List.mem_cons_self _ _)) (by simp)
  | cons kv m' ih =>
    intro f ps hf hps hnw hkeys hvals hcov
    obtain ⟨k, v⟩ := kv
    have hk : wordKey k := hkeys (k, v) (List.mem_cons_self _ _)
    rw [substFold_cons]
    have hstep : replaceAll (flattenShape f ps) (tok k) v =
        flattenShape (f ++ (goPairs k v ps).1) (goPairs k v ps).2 := by
      show replaceAll (f ++ flatPairs ps) (tok k) v = _
      rw [replaceAll_append_left_tok _ _ f _ hf, replaceAll_flatPairs k v hk ps hps hnw]
      simp [flattenShape, List.append_assoc]
    rw [hstep]
    have hmain : substFold (flattenShape (f ++ (goPairs k v ps).1) (goPairs k v ps).2) m' =
        renderShape m' (f ++ (goPairs k v ps).1) (goPairs k v ps).2 := by
      cases hm' : m' with
      | nil =>
        have hg2 : (goPairs k v ps).2 = [] := by
          cases hg : (goPairs k v ps).2 with
          | nil => rfl
          | cons p r =>
            have hp := goPairs_snd_keys k v ps p (by rw [hg]; exact List.mem_cons_self _ _)
            obtain ⟨q, hq, hq1⟩ := List.mem_map.mp hp.1
            have hqk := hcov q hq
            rw [hm'] at hqk
            simp at hqk
            exact absurd (hq1 ▸ hqk : p.1 = k) hp.2
        rw [hg2]
        simp [substFold, flattenShape, renderShape, flatPairs, renderPairs]
      | cons kv2 m2 =>
        have hv : atFree v := by
          apply hvals (k, v)
          rw [hm', List.dropLast_cons₂]
          exact List.mem_cons_self _ _
        obtain ⟨hA, hB, hC⟩ := goPairs_preserve k v hv ps hps hnw
        rw [← hm']
        apply ih
        · intro hm
          rcases List.mem_append.mp hm with h | h
          · exact hf h
          · exact hC h
        · exact hA
        · exact hB
        · intro q hq
          exact hkeys q (List.mem_cons_of_mem _ hq)
        · intro q hq
          exact hvals q (dropLast_mono _ _ q hq)
        · intro p hp
          have hpk := goPairs_snd_keys k v ps p hp
          obtain ⟨q, hq, hq1⟩ := List.mem_map.mp hpk.1
          have h2 := hcov q hq
          rw [List.map_cons] at h2
          rcases List.mem_cons.mp h2 with h3 | h3
          · exact absurd (hq1 ▸ h3 : p.1 = k) hpk.2
          · exact hq1 ▸ h3
    rw [hmain]
    rw [show renderShape ((k, v) :: m') f ps = f ++ renderPairs ((k, v) :: m') ps from rfl,
      renderPairs_transfer k v m' ps]
    simp [renderShape, List.append_assoc]

/-! ### Helper lemmas for the claim theorems -/

theorem safe_substitute_ok_iff (t : List Char) (m : List (List Char × List Char)) :
    (∃ r, safe_substitute t m = .ok r) ↔
      (findall t).toFinset ⊆ (m.map Prod.fst).toFinset := by
  unfold safe_substitute
  by_cases h : (findall t).toFinset \ (m.map Prod.fst).toFinset = ∅
  · rw [if_neg (by simpa using h)]
    simp [Finset.sdiff_eq_empty_iff_subset.mp h]
  · rw [if_pos (by simpa using h)]
    constructor
    · rintro ⟨r, hr⟩; exact absurd hr (by simp)
    · intro hs; exact absurd (Finset.sdiff_eq_empty_iff_subset.mpr hs) h

theorem safe_substitute_ok_of_subset (t : List Char) (m : List (List Char × List Char))
    (h : (findall t).toFinset ⊆ (m.map Prod.fst).toFinset) :
    safe_substitute t m = .ok (substFold t m) := by
  unfold safe_substitute
  rw [if_neg (by simp [Finset.sdiff_eq_empty_iff_subset.mpr h])]

theorem lookupVal_middle (k : List Char) :
    ∀ (m₁ m₂ : List (List Char × List Char)) (ke ve : List Char), k ≠ ke →
      lookupVal (m₁ ++ (ke, ve) :: m₂) k = lookupVal (m₁ ++ m₂) k := by
  intro m₁
  induction m₁ with
  | nil =>
    intro m₂ ke ve hne
    show (if ke = k then ve else lookupVal m₂ k) = lookupVal m₂ k
    rw [if_neg (Ne.symm hne)]
  | cons q m1' ih =>
    intro m₂ ke ve hne
    obtain ⟨k1, v1⟩ := q
    show (if k1 = k then v1 else lookupVal (m1' ++ (ke, ve) :: m₂) k) =
      (if k1 = k then v1 else lookupVal (m1' ++ m₂) k)
    by_cases h1 : k1 = k
    · rw [if_pos h1, if_pos h1]
    · rw [if_neg h1, if_neg h1, ih m₂ ke ve hne]

theorem lookupVal_append_right (k v : List Char) :
    ∀ m₀ : List (List Char × List Char), k ∉ m₀.map Prod.fst →
      lookupVal (m₀ ++ [(k, v)]) k = v := by
  intro m₀
  induction m₀ with
  | nil => intro _; simp [lookupVal]
  | cons q m' ih =>
    intro h
    obtain ⟨k1, v1⟩ := q
    show (if k1 = k then v1 else lookupVal (m' ++ [(k, v)]) k) = v
    rw [if_neg (fun he => h (by simp [he])), ih (fun hm => h (List.mem_cons_of_mem _ hm))]

theorem renderPairs_congr (mA mB : List (List Char × List Char)) :
    ∀ ps : List (List Char × List Char),
      (∀ p ∈ ps, lookupVal mA p.1 = lookupVal mB p.1) →
      renderPairs mA ps = renderPairs mB ps := by
  intro ps
  induction ps with
  | nil => intro _; rfl
  | cons q rest ih =>
    intro h
    show (lookupVal mA q.1 ++ q.2) ++ renderPairs mA rest =
      (lookupVal mB q.1 ++ q.2) ++ renderPairs mB rest
    rw [h q (List.mem_cons_self _ _), ih (fun p hp => h p (List.mem_cons_of_mem _ hp))]

theorem renderShape_splits (m : List (List Char × List Char)) :
    ∀ (ps : List (List Char × List Char)) (f k l : List Char), (k, l) ∈ ps →
      ∃ a b, renderShape m f ps = a ++ (lookupVal m k ++ b) := by
  intro ps
  induction ps with
  | nil => intro f k l h; simp at h
  | cons q rest ih =>
    intro f k l h
    rcases List.mem_cons.mp h with h1 | h1
    · refine ⟨f, q.2 ++ renderPairs m rest, ?_⟩
      show f ++ renderPairs m (q :: rest) = _
      rw [← h1]
      show f ++ ((lookupVal m k ++ l) ++ renderPairs m rest) = _
      simp [List.append_assoc]
    · obtain ⟨a, b, hab⟩ := ih (f ++ (lookupVal m q.1 ++ q.2)) k l h1
      refine ⟨a, b, ?_⟩
      rw [← hab]
      show f ++ ((lookupVal m q.1 ++ q.2) ++ renderPairs m rest) = _
      show _ = (f ++ (lookupVal m q.1 ++ q.2)) ++ renderPairs m rest
      simp [List.append_assoc]

theorem mainRun_ok (env : MainEnv) (args : CliArgs) (hp : env.parseResult = .ok args) :
    mainRun env = (match mainTry env args with
      | .ok _ => ((0 : Nat), (none : Option PyErr))
      | .error e => (1, some e)) := by
  unfold mainRun
  rw [hp]

theorem mainRun_parse_error (env : MainEnv) (code : Nat)
    (hp : env.parseResult = .error code) : mainRun env = (code, none) := by
  unfold mainRun
  rw [hp]

theorem mainTry_template_missing (env : MainEnv) (args : CliArgs)
    (htf : env.templateIsFile = false) :
    mainTry env args = .error (.fileNotFound (templatePath env)) := by
  unfold mainTry
  rw [htf, show read_template (templatePath env) false env.templateRead =
    .error (.fileNotFound (templatePath env)) from by simp [read_template]]

theorem mainTry_cfgFalse (env : MainEnv) (args : CliArgs) (h : env.cfgExists = false) :
    mainTry env args =
      match read_template (templatePath env) env.templateIsFile env.templateRead with
      | .error e => .error e
      | .ok tpl =>
        match safe_substitute tpl.template
            [(("hostname").data, resolveHostname args.hostname env.sysHostname),
             (("topic").data, args.topic), (("body").data, args.body)] with
        | .error e => .error e
        | .ok _ => .error (.msmtpConfigNotFound (msmtpConfigPath env)) := by
  unfold mainTry
  cases read_template (templatePath env) env.templateIsFile env.templateRead with
  | error e => rfl
  | ok tpl =>
    dsimp only
    cases safe_substitute tpl.template
        [(("hostname").data, resolveHostname args.hostname env.sysHostname),
         (("topic").data, args.topic), (("body").data, args.body)] with
    | error e => rfl
    | ok content => simp [send_email, h]

theorem mainTry_error_of_cfgFalse (env : MainEnv) (args : CliArgs)
    (h : env.cfgExists = false) : ∃ e, mainTry env args = .error e := by
  rw [mainTry_cfgFalse env args h]
  cases read_template (templatePath env) env.templateIsFile env.templateRead with
  | error e => exact ⟨e, rfl⟩
  | ok tpl =>
    dsimp only
    cases safe_substitute tpl.template
        [(("hostname").data, resolveHostname args.hostname env.sysHostname),
         (("topic").data, args.topic), (("body").data, args.body)] with
    | error e => exact ⟨e, rfl⟩
    | ok content => exact ⟨_, rfl⟩

/-! ### Claim theorems -/

/-- C10: `safe_substitute` processes the provided keys sequentially in
argument order, each replacement operating on the accumulated result of the
previous ones: on template `@hostname@ @topic@ @body@` with
`hostname="@topic@", topic="T", body="B"` (in that order) the result is
exactly `T T B`, not the `@topic@ T B` a simultaneous replacement would
give. -/
theorem safe_substitute_sequential_order :
    safe_substitute (("@hostname@ @topic@ @body@").data)
      [(("hostname").data, ("@topic@").data), (("topic").data, ("T").data),
       (("body").data, ("B").data)] = .ok (("T T B").data)
    ∧ ("T T B").data ≠ ("@topic@ T B").data := by
  constructor
  · decide
  · decide

/-- C5: whenever the supplied keys do not cover the placeholder names
recomputed from the live template text (for any template string, even one the
constructor would reject), `safe_substitute` raises a `TemplateError` naming
exactly the missing keys and produces no rendered output. -/
theorem safe_substitute_missing_values_spec :
    ∀ (t : List Char) (m : List (List Char × List Char)),
      (findall t).toFinset \ (m.map Prod.fst).toFinset ≠ ∅ →
      safe_substitute t m =
        .error (.missingValues ((findall t).toFinset \ (m.map Prod.fst).toFinset))
      ∧ ∀ r, safe_substitute t m ≠ .ok r := by
  intro t m h
  unfold safe_substitute
  rw [if_pos (by simpa using h)]
  exact ⟨rfl, fun r hr => by simp at hr⟩

/-- Witness for C5: `@foo@` is a template the constructor would reject, yet
substitution with no values still recomputes and reports `{foo}`. -/
theorem safe_substitute_missing_values_spec_witness :
    safe_substitute (("@foo@").data) [] = .error (.missingValues {("foo").data})
    ∧ ∀ r, safe_substitute (("@foo@").data) [] ≠ .ok r := by
  have h := safe_substitute_missing_values_spec (("@foo@").data) [] (by decide)
  have e : (findall (("@foo@").data)).toFinset \
      (([] : List (List Char × List Char)).map Prod.fst).toFinset = {("foo").data} := by decide
  rw [e] at h
  exact h

/-- Counterexample for C4: the template `@hostname@topic@body@` contains all
three required tokens as substrings (`@topic@` overlaps the closing `@` of
`@hostname@`), so under the claim's reading construction should succeed; the
code's non-overlapping scan misses `topic` and construction fails naming it. -/
theorem mk_template_overlap_cex :
    requiredPlaceholders ⊆ namesAppearing (("@hostname@topic@body@").data)
    ∧ namesAppearing (("@hostname@topic@body@").data) ≠ ∅
    ∧ mkEmailTemplate (("@hostname@topic@body@").data) =
        .error (.templateMissing {("topic").data}) := by
  refine ⟨by decide, by decide, by decide⟩

/-- C4 (amended): with "discovered" meaning the left-to-right non-overlapping
scan of `re.findall` (a token's closing `@` is consumed, so a name whose token
overlaps an earlier match can be missed), construction succeeds iff the
discovered set contains `{hostname, topic, body}`; an empty discovered set
reports "no valid placeholders", a non-empty one missing required names
reports exactly `required \ discovered`; on success the stored template is the
input string. -/
theorem mk_template_validation_spec :
    ∀ t : List Char,
      ((∃ tpl, mkEmailTemplate t = .ok tpl) ↔
        requiredPlaceholders ⊆ (findall t).toFinset)
      ∧ ((findall t).toFinset = ∅ → mkEmailTemplate t = .error .noPlaceholders)
      ∧ ((findall t).toFinset ≠ ∅ → ¬ requiredPlaceholders ⊆ (findall t).toFinset →
          mkEmailTemplate t =
            .error (.templateMissing (requiredPlaceholders \ (findall t).toFinset)))
      ∧ (∀ tpl, mkEmailTemplate t = .ok tpl → tpl.template = t) := by
  intro t
  unfold mkEmailTemplate
  by_cases hfe : (findall t).toFinset = ∅
  · rw [if_pos hfe]
    refine ⟨?_, fun _ => rfl, fun hne _ => absurd hfe hne, fun tpl h => by simp at h⟩
    constructor
    · rintro ⟨tpl, h⟩; simp at h
    · intro hs
      have : (("hostname").data) ∈ (∅ : Finset (List Char)) := by
        rw [← hfe]
        exact hs (by decide)
      simp at this
  · rw [if_neg hfe]
    by_cases hmiss : requiredPlaceholders \ (findall t).toFinset = ∅
    · rw [if_neg (by simpa using hmiss)]
      have hsub := Finset.sdiff_eq_empty_iff_subset.mp hmiss
      refine ⟨?_, fun h => absurd h hfe, fun _ hns => absurd hsub hns, ?_⟩
      · simp [hsub]
      · intro tpl h
        have : tpl = ⟨t⟩ := by simpa using h.symm
        rw [this]
    · rw [if_pos (by simpa using hmiss)]
      refine ⟨?_, fun h => absurd h hfe, fun _ _ => rfl, fun tpl h => by simp at h⟩
      constructor
      · rintro ⟨tpl, h⟩; simp at h
      · intro hs; exact absurd (Finset.sdiff_eq_empty_iff_subset.mpr hs) hmiss

/-- Witness for C4: a template with all three placeholders (plus a repeat)
constructs successfully; one missing `body` fails naming exactly `{body}`. -/
theorem mk_template_validation_spec_witness :
    (∃ tpl, mkEmailTemplate (("@hostname@:@topic@:@body@ @topic@").data) = .ok tpl)
    ∧ mkEmailTemplate (("@hostname@ @topic@").data) =
        .error (.templateMissing {("body").data}) := by
  constructor
  · exact (mk_template_validation_spec (("@hostname@:@topic@:@body@ @topic@").data)).1.mpr
      (by decide)
  · have h := (mk_template_validation_spec (("@hostname@ @topic@").data)).2.2.1
      (by decide) (by decide)
    have e : requiredPlaceholders \ (findall (("@hostname@ @topic@").data)).toFinset =
        {("body").data} := by decide
    rw [e] at h
    exact h

/-- Counterexample for C2: an `OSError`-family exception during process
creation (e.g. `FileNotFoundError` when `msmtp` is not installed) is not a
`subprocess.SubprocessError`, so `except subprocess.SubprocessError` does not
catch it: `send_email` propagates the exception instead of returning the
`(False, str(e))` pair the claim requires for "any exception". -/
theorem send_email_exception_cex :
    send_email [] [] true (.osError (("boom").data)) = .error (.osError (("boom").data))
    ∧ send_email [] [] true (.osError (("boom").data)) ≠ .ok (false, some (("boom").data)) := by
  exact ⟨rfl, by decide⟩

/-- C2 (amended): with the config file present, `send_email` returns
`(True, None)` iff the child exits 0; on non-zero exit it returns
`(False, stderr.strip())`; an exception of the `subprocess.SubprocessError`
class yields `(False, str(e))`; but an `OSError`-family exception from process
creation/communication is not caught and propagates out of `send_email`.  The
returned pair is never a success flag `True` with error text. -/
theorem send_email_outcome_spec :
    ∀ content cfgPath : List Char,
      (∀ so se : List Char,
        send_email content cfgPath true (.completed 0 so se) = .ok (true, none))
      ∧ (∀ (rc : Int) (so se : List Char), rc ≠ 0 →
          send_email content cfgPath true (.completed rc so se) =
            .ok (false, some (pyStrip se)))
      ∧ (∀ m : List Char,
          send_email content cfgPath true (.subprocessError m) = .ok (false, some m))
      ∧ (∀ m : List Char,
          send_email content cfgPath true (.osError m) = .error (.osError m))
      ∧ (∀ (o : ProcOutcome) (r : Bool × Option (List Char)),
          send_email content cfgPath true o = .ok r →
          ((r = (true, none)) ↔ ∃ so se, o = .completed 0 so se))
      ∧ (∀ (o : ProcOutcome) (r : Bool × Option (List Char)),
          send_email content cfgPath true o = .ok r → r.1 = true → r.2 = none) := by
  intro content cfgPath
  refine ⟨fun so se => by simp [send_email], fun rc so se hrc => by simp [send_email, hrc],
    fun m => by simp [send_email], fun m => by simp [send_email], ?_, ?_⟩
  · intro o r h
    cases o with
    | completed rc so se =>
      by_cases hrc : rc = 0
      · subst hrc
        simp only [send_email, Bool.not_true, Bool.false_eq_true, if_false, ne_eq,
          not_true_eq_false, reduceIte] at h
        constructor
        · intro _; exact ⟨so, se, rfl⟩
        · intro _
          simp [send_email] at h
          exact h.symm
      · constructor
        · intro he
          simp [send_email, hrc] at h
          rw [← h] at he
          simp at he
        · rintro ⟨so', se', heq⟩
          injection heq with h1 _ _
          exact absurd h1 hrc
    | subprocessError m =>
      constructor
      · intro he
        simp [send_email] at h
        rw [← h] at he
        simp at he
      · rintro ⟨so', se', heq⟩
        exact ProcOutcome.noConfusion heq
    | osError m => simp [send_email] at h
  · intro o r h h1
    cases o with
    | completed rc so se =>
      by_cases hrc : rc = 0
      · subst hrc
        simp [send_email] at h
        rw [← h]
      · simp [send_email, hrc] at h
        rw [← h] at h1
        simp at h1
    | subprocessError m =>
      simp [send_email] at h
      rw [← h] at h1
      simp at h1
    | osError m => simp [send_email] at h

/-- Witness for C2 (amended), at the spec's scenario-C data: exit status 3
with stderr `" relay timeout\n"` yields `(False, "relay timeout")`, exit 0
yields `(True, None)`, and an `OSError` propagates. -/
theorem send_email_outcome_spec_witness :
    send_email [] [] true (.completed 0 [] []) = .ok (true, none)
    ∧ send_email [] [] true (.completed 3 [] ((" relay timeout" ++ "\n").data)) =
        .ok (false, some (("relay timeout").data))
    ∧ send_email [] [] true (.subprocessError (("pipe broke").data)) =
        .ok (false, some (("pipe broke").data)) := by
  have h := send_email_outcome_spec [] []
  refine ⟨h.1 [] [], ?_, h.2.2.1 (("pipe broke").data)⟩
  have h2 := h.2.1 3 [] ((" relay timeout" ++ "\n").data) (by decide)
  have e : pyStrip ((" relay timeout" ++ "\n").data) = ("relay timeout").data := by decide
  rw [e] at h2
  exact h2

/-- C7: if the msmtp configuration file is absent, `send_email` raises a
`RuntimeError` naming the config path — an exception, never the
`(False, error)` delivery-failure return — before the subprocess oracle is
consulted; under a parsed command line the program then exits with code 1, and
its behaviour is independent of the subprocess oracle (no child spawned). -/
theorem send_email_config_missing_spec :
    (∀ (content cfgPath : List Char) (o : ProcOutcome),
        send_email content cfgPath false o = .error (.msmtpConfigNotFound cfgPath)
        ∧ ∀ p : Bool × Option (List Char), send_email content cfgPath false o ≠ .ok p)
    ∧ (∀ (env : MainEnv) (args : CliArgs) (o' : ProcOutcome),
        env.parseResult = .ok args → env.cfgExists = false →
        (mainRun env).1 = 1 ∧ mainRun { env with procOutcome := o' } = mainRun env) := by
  constructor
  · intro content cfgPath o
    refine ⟨rfl, fun p hp => ?_⟩
    simp [send_email] at hp
  · intro env args o' hp hcfg
    constructor
    · rw [mainRun_ok env args hp]
      obtain ⟨e, he⟩ := mainTry_error_of_cfgFalse env args hcfg
      rw [he]
    · have hp' : ({ env with procOutcome := o' } : MainEnv).parseResult = .ok args := hp
      have hcfg' : ({ env with procOutcome := o' } : MainEnv).cfgExists = false := hcfg
      have e3 : mainTry { env with procOutcome := o' } args = mainTry env args := by
        rw [mainTry_cfgFalse { env with procOutcome := o' } args hcfg',
          mainTry_cfgFalse env args hcfg]
        rfl
      rw [mainRun_ok { env with procOutcome := o' } args hp', mainRun_ok env args hp, e3]

/-- Witness for C7, at a concrete environment with the config file absent:
`send_email` raises; the run exits 1 whatever the subprocess oracle says. -/
theorem send_email_config_missing_spec_witness :
    (let envW : MainEnv :=
      { parseResult := .ok ⟨("T").data, ("B").data, some (("H").data)⟩,
        sysHostname := ("h").data, scriptDir := [],
        templateIsFile := true, templateRead := .ok (("@hostname@:@topic@:@body@").data),
        cfgHome := [], cfgExists := false, procOutcome := .completed 0 [] [] };
     send_email (("msg").data) (("/home/u/.msmtprc").data) false (.completed 0 [] []) =
       .error (.msmtpConfigNotFound (("/home/u/.msmtprc").data))
     ∧ (mainRun envW).1 = 1
     ∧ mainRun { envW with procOutcome := .subprocessError (("x").data) } = mainRun envW) := by
  intro envW
  refine ⟨(send_email_config_missing_spec.1 (("msg").data) (("/home/u/.msmtprc").data)
      (.completed 0 [] [])).1, ?_, ?_⟩
  · exact (send_email_config_missing_spec.2 envW ⟨("T").data, ("B").data, some (("H").data)⟩
      (.completed 0 [] []) rfl rfl).1
  · exact (send_email_config_missing_spec.2 envW ⟨("T").data, ("B").data, some (("H").data)⟩
      (.subprocessError (("x").data)) rfl rfl).2

/-- C8: `read_template` fails with a `FileNotFoundError` naming the path when
the path is not a regular file; with an `IOError`/`UnicodeDecodeError` wrapped
into a `TemplateError` when reading or decoding fails; otherwise its result is
the `EmailTemplate` constructor applied to the file's full contents.  When the
template file is missing, the run exits 1 with the error line naming the
missing path (substitution is never reached). -/
theorem read_template_spec :
    (∀ (path : List Char) (rr : Except (List Char) (List Char)),
        read_template path false rr = .error (.fileNotFound path))
    ∧ (∀ path e : List Char, read_template path true (.error e) = .error (.readError e))
    ∧ (∀ path c : List Char, read_template path true (.ok c) = mkEmailTemplate c)
    ∧ (∀ (env : MainEnv) (args : CliArgs), env.parseResult = .ok args →
        env.templateIsFile = false →
        mainRun env = (1, some (.fileNotFound (templatePath env)))) := by
  refine ⟨fun path rr => rfl, fun path e => rfl, fun path c => rfl, ?_⟩
  intro env args hp htf
  rw [mainRun_ok env args hp, mainTry_template_missing env args htf]

/-- Witness for C8: the error branches and the constructor branch at concrete
data, and a concrete run whose template file is absent exiting `(1, error)`
with the path in the message. -/
theorem read_template_spec_witness :
    read_template (("/srv/template.txt").data) false (.ok []) =
      .error (.fileNotFound (("/srv/template.txt").data))
    ∧ read_template (("/srv/template.txt").data) true (.error (("bad utf-8").data)) =
      .error (.readError (("bad utf-8").data))
    ∧ read_template (("/srv/template.txt").data) true
        (.ok (("@hostname@:@topic@:@body@").data)) =
      mkEmailTemplate (("@hostname@:@topic@:@body@").data)
    ∧ mainRun
        { parseResult := .ok ⟨("T").data, ("B").data, none⟩,
          sysHostname := ("h").data, scriptDir := ("/srv").data,
          templateIsFile := false, templateRead := .error [], cfgHome := [],
          cfgExists := true, procOutcome := .completed 0 [] [] } =
        (1, some (.fileNotFound ((("/srv").data) ++ ("/template.txt").data))) := by
  refine ⟨read_template_spec.1 _ _, read_template_spec.2.1 _ _, read_template_spec.2.2.1 _ _, ?_⟩
  exact read_template_spec.2.2.2 _ ⟨("T").data, ("B").data, none⟩ rfl rfl

/-- Counterexample for C3: on a command line `argparse` rejects (e.g. a
missing required `--topic`), `parse_args` raises `SystemExit(2)`; the
`except Exception` clause does not catch `SystemExit`, so the process exits
with status 2, not the claimed 1 (and prints no `Error:` line). -/
theorem main_cli_error_exit_cex :
    mainRun
      { parseResult := .error 2, sysHostname := [], scriptDir := [],
        templateIsFile := false, templateRead := .error [], cfgHome := [],
        cfgExists := false, procOutcome := .osError [] } = (2, none)
    ∧ (2 : Nat) ≠ 1 := ⟨rfl, by decide⟩

/-- C3 (amended): once the command line has parsed, `main` terminates with
exit code 0 on full success and 1 on any error (missing template, invalid
template, missing config, delivery failure, or any other `Exception`), never
propagating such a fault; exit 1 happens exactly when the one-line
`Error: <message>` is printed to stderr, and exit 0 exactly when it is not.
Argument-parsing errors, however, terminate with `argparse`'s own exit status
(2 on usage errors, 0 for `--help`), bypassing the handler. -/
theorem main_exit_codes_after_parse :
    ∀ (env : MainEnv) (args : CliArgs), env.parseResult = .ok args →
      ((mainRun env).1 = 0 ∨ (mainRun env).1 = 1)
      ∧ ((mainRun env).1 = 0 ↔ (mainRun env).2 = none)
      ∧ ((mainRun env).1 = 1 ↔ ∃ e, (mainRun env).2 = some e) := by
  intro env args hp
  rw [mainRun_ok env args hp]
  cases mainTry env args with
  | ok u => simp
  | error e => simp

/-- Witness for C3 (amended): a fully successful concrete run exits `(0, no
error line)`, and a run whose delivery fails exits `(1, some error)`. -/
theorem main_exit_codes_after_parse_witness :
    (let envA : MainEnv :=
      { parseResult := .ok ⟨("T").data, ("B").data, some (("H").data)⟩,
        sysHostname := ("h").data, scriptDir := [],
        templateIsFile := true, templateRead := .ok (("@hostname@:@topic@:@body@").data),
        cfgHome := [], cfgExists := true, procOutcome := .completed 0 [] [] };
      ((mainRun envA).1 = 0 ∨ (mainRun envA).1 = 1)
      ∧ ((mainRun envA).1 = 0 ↔ (mainRun envA).2 = none)
      ∧ ((mainRun envA).1 = 1 ↔ ∃ e, (mainRun envA).2 = some e)) := by
  exact main_exit_codes_after_parse _ ⟨("T").data, ("B").data, some (("H").data)⟩ rfl

/-- Counterexample for C1: with full coverage of the discovered placeholders,
`hostname="x", topic="@body@", body="B"` on `@hostname@:@topic@:@body@` yields
`x:B:B` — the text inserted for `topic` was rewritten by the later `body`
replacement — whereas replacing every exact occurrence of each `@key@` by that
key's value (simultaneous reading) yields `x:@body@:B`. -/
theorem safe_substitute_not_simultaneous_cex :
    (findall (("@hostname@:@topic@:@body@").data)).toFinset ⊆
      (([(("hostname").data, ("x").data), (("topic").data, ("@body@").data),
        (("body").data, ("B").data)].map Prod.fst).toFinset)
    ∧ safe_substitute (("@hostname@:@topic@:@body@").data)
        [(("hostname").data, ("x").data), (("topic").data, ("@body@").data),
         (("body").data, ("B").data)] = .ok (("x:B:B").data)
    ∧ simultaneousSubst
        [(("hostname").data, ("x").data), (("topic").data, ("@body@").data),
         (("body").data, ("B").data)] (("@hostname@:@topic@:@body@").data) =
        ("x:@body@:B").data
    ∧ ("x:B:B").data ≠ ("x:@body@:B").data := by
  refine ⟨by decide, by decide, by decide, by decide⟩

/-- C1 (amended): whenever the supplied keys cover the discovered
placeholders, `safe_substitute` succeeds; and on every template that
alternates `@`-free literals with placeholder tokens (interior literals
containing a non-word character), with word-character keys whose values —
except possibly the last — are `@`-free, the result is exactly the
simultaneous rendering: every token replaced by its key's value, literals and
values untouched.  (Without those provisos a value containing a later key's
token is rewritten, as the counterexample shows.)  The concrete instance
`hostname="H", topic="Top", body="B"` on `@hostname@:@topic@:@body@` gives
`H:Top:B`. -/
theorem safe_substitute_renders_shape :
    (∀ (t : List Char) (m : List (List Char × List Char)),
        (findall t).toFinset ⊆ (m.map Prod.fst).toFinset →
        ∃ r, safe_substitute t m = .ok r)
    ∧ (∀ (f : List Char) (ps m : List (List Char × List Char)),
        atFree f → (∀ p ∈ ps, wordKey p.1 ∧ atFree p.2) →
        (∀ p ∈ ps.dropLast, hasNonWord p.2) →
        (∀ kv ∈ m, wordKey kv.1) → (∀ kv ∈ m.dropLast, atFree kv.2) →
        (∀ p ∈ ps, p.1 ∈ m.map Prod.fst) →
        safe_substitute (flattenShape f ps) m = .ok (renderShape m f ps)) := by
  constructor
  · intro t m h
    exact ⟨substFold t m, safe_substitute_ok_of_subset t m h⟩
  · intro f ps m hf hps hnw hkeys hvals hcov
    have hfind : findall (flattenShape f ps) = ps.map Prod.fst := findall_flatten ps f hf hps
    have hsub : (findall (flattenShape f ps)).toFinset ⊆ (m.map Prod.fst).toFinset := by
      rw [hfind]
      intro x hx
      rw [List.mem_toFinset] at hx
      obtain ⟨p, hp, hpx⟩ := List.mem_map.mp hx
      rw [List.mem_toFinset]
      exact hpx ▸ hcov p hp
    rw [safe_substitute_ok_of_subset _ _ hsub,
      substFold_render m f ps hf hps hnw hkeys hvals hcov]

/-- Witness for C1 (amended) at the spec's flagship instance. -/
theorem safe_substitute_renders_shape_witness :
    safe_substitute (("@hostname@:@topic@:@body@").data)
      [(("hostname").data, ("H").data), (("topic").data, ("Top").data),
       (("body").data, ("B").data)] = .ok (("H:Top:B").data) := by
  have h := safe_substitute_renders_shape.2 []
    [((("hostname").data), ((":").data)), ((("topic").data), ((":").data)),
     ((("body").data), ([] : List Char))]
    [(("hostname").data, ("H").data), (("topic").data, ("Top").data),
     (("body").data, ("B").data)]
    (by decide) (by decide) (by decide) (by decide) (by decide) (by decide)
  have e1 : flattenShape []
      [((("hostname").data), ((":").data)), ((("topic").data), ((":").data)),
       ((("body").data), ([] : List Char))] = (("@hostname@:@topic@:@body@").data) := by decide
  have e2 : renderShape
      [(("hostname").data, ("H").data), (("topic").data, ("Top").data),
       (("body").data, ("B").data)] []
      [((("hostname").data), ((":").data)), ((("topic").data), ((":").data)),
       ((("body").data), ([] : List Char))] = (("H:Top:B").data) := by decide
  rw [e1, e2] at h
  exact h

/-- Counterexample for C6: the value `@body@` supplied for `hostname` is not
inserted verbatim into the output — the later `body` replacement rewrites it,
so the final output `B T B` does not contain `@body@` at all. -/
theorem inserted_value_rewritten_cex :
    safe_substitute (("@hostname@ @topic@ @body@").data)
      [(("hostname").data, ("@body@").data), (("topic").data, ("T").data),
       (("body").data, ("B").data)] = .ok (("B T B").data)
    ∧ containsSub (("@body@").data) (("B T B").data) = false := by
  refine ⟨by decide, by decide⟩

/-- C6 (amended): a provided value is inserted verbatim and never rescanned
provided no later-processed key's token can match it; in particular the value
of the last-processed key — even one containing `@name@`-shaped text such as
`cost is @5@` — is spliced into the output verbatim (the replacement loop
never rescans inserted text in a second pass; only the remaining iterations of
the single pass can touch it). -/
theorem last_value_inserted_verbatim :
    ∀ (f : List Char) (ps m₀ : List (List Char × List Char)) (k v : List Char),
      atFree f → (∀ p ∈ ps, wordKey p.1 ∧ atFree p.2) →
      (∀ p ∈ ps.dropLast, hasNonWord p.2) →
      (∀ kv ∈ m₀, wordKey kv.1 ∧ atFree kv.2) → wordKey k →
      k ∉ m₀.map Prod.fst →
      (∀ p ∈ ps, p.1 ∈ (m₀ ++ [(k, v)]).map Prod.fst) →
      safe_substitute (flattenShape f ps) (m₀ ++ [(k, v)]) =
        .ok (renderShape (m₀ ++ [(k, v)]) f ps)
      ∧ ∀ l, (k, l) ∈ ps →
          ∃ a b, renderShape (m₀ ++ [(k, v)]) f ps = a ++ (v ++ b) := by
  intro f ps m₀ k v hf hps hnw hm0 hk hknot hcov
  have hkeys : ∀ kv ∈ m₀ ++ [(k, v)], wordKey kv.1 := by
    intro kv hkv
    rcases List.mem_append.mp hkv with h | h
    · exact (hm0 kv h).1
    · rw [List.mem_singleton.mp h]
      exact hk
  have hvals : ∀ kv ∈ (m₀ ++ [(k, v)]).dropLast, atFree kv.2 := by
    intro kv hkv
    rw [show (m₀ ++ [(k, v)]).dropLast = m₀ from by simp] at hkv
    exact (hm0 kv hkv).2
  constructor
  · have hfind : findall (flattenShape f ps) = ps.map Prod.fst := findall_flatten ps f hf hps
    have hsub : (findall (flattenShape f ps)).toFinset ⊆
        ((m₀ ++ [(k, v)]).map Prod.fst).toFinset := by
      rw [hfind]
      intro x hx
      rw [List.mem_toFinset] at hx
      obtain ⟨p, hp, hpx⟩ := List.mem_map.mp hx
      rw [List.mem_toFinset]
      exact hpx ▸ hcov p hp
    rw [safe_substitute_ok_of_subset _ _ hsub,
      substFold_render (m₀ ++ [(k, v)]) f ps hf hps hnw hkeys hvals hcov]
  · intro l hl
    have hlk : lookupVal (m₀ ++ [(k, v)]) k = v := lookupVal_append_right k v m₀ hknot
    obtain ⟨a, b, hab⟩ := renderShape_splits (m₀ ++ [(k, v)]) ps f k l hl
    exact ⟨a, b, by rw [hab, hlk]⟩

/-- Witness for C6 (amended) at the spec's own example: `body="cost is @5@"`,
supplied last, appears verbatim in the output. -/
theorem last_value_inserted_verbatim_witness :
    safe_substitute (("@hostname@:@topic@:@body@").data)
      [(("hostname").data, ("H").data), (("topic").data, ("T").data),
       (("body").data, ("cost is @5@").data)] = .ok (("H:T:cost is @5@").data)
    ∧ ∃ a b, ("H:T:cost is @5@").data = a ++ ((("cost is @5@").data) ++ b) := by
  have h := last_value_inserted_verbatim []
    [((("hostname").data), ((":").data)), ((("topic").data), ((":").data)),
     ((("body").data), ([] : List Char))]
    [(("hostname").data, ("H").data), (("topic").data, ("T").data)]
    (("body").data) (("cost is @5@").data)
    (by decide) (by decide) (by decide) (by decide) (by decide) (by decide) (by decide)
  have e1 : flattenShape []
      [((("hostname").data), ((":").data)), ((("topic").data), ((":").data)),
       ((("body").data), ([] : List Char))] = (("@hostname@:@topic@:@body@").data) := by decide
  have e2 : renderShape
      ([(("hostname").data, ("H").data), (("topic").data, ("T").data)] ++
        [((("body").data), (("cost is @5@").data))]) []
      [((("hostname").data), ((":").data)), ((("topic").data), ((":").data)),
       ((("body").data), ([] : List Char))] = (("H:T:cost is @5@").data) := by decide
  constructor
  · have h1 := h.1
    rw [e1, e2] at h1
    exact h1
  · obtain ⟨a, b, hab⟩ := h.2 [] (by decide)
    rw [e2] at hab
    exact ⟨a, b, hab⟩

/-- Counterexample for C9: the extra key `x` whose token `@x@` does not occur
in the template nevertheless changes the output, because `hostname`'s value
inserts `@x@` into the accumulated text and the extra key's iteration then
rewrites it: with the extra key the result is `GOT:T:B`, without it
`@x@:T:B`. -/
theorem extra_key_alters_output_cex :
    safe_substitute (("@hostname@:@topic@:@body@").data)
      [(("hostname").data, ("@x@").data), (("x").data, ("GOT").data),
       (("topic").data, ("T").data), (("body").data, ("B").data)] =
        .ok (("GOT:T:B").data)
    ∧ safe_substitute (("@hostname@:@topic@:@body@").data)
        [(("hostname").data, ("@x@").data), (("topic").data, ("T").data),
         (("body").data, ("B").data)] = .ok (("@x@:T:B").data)
    ∧ containsSub (tok (("x").data)) (("@hostname@:@topic@:@body@").data) = false
    ∧ (("GOT:T:B").data) ≠ (("@x@:T:B").data) := by
  refine ⟨by decide, by decide, by decide, by decide⟩

/-- C9 (amended): an extra key never turns success into an error; and when no
provided value can interact with the replacement loop (the shape provisos:
`@`-free literals and values, word-character keys) an extra key whose token is
not a placeholder of the template does not alter the output — dropping it
gives the same result.  (When a value manufactures the extra key's token in
the accumulated text, the extra key does alter the output, as the
counterexample shows.) -/
theorem extra_keys_ignored_amended :
    (∀ (t : List Char) (m₁ m₂ : List (List Char × List Char)) (ke ve : List Char),
        (∃ r, safe_substitute t (m₁ ++ m₂) = .ok r) →
        ∃ r, safe_substitute t (m₁ ++ (ke, ve) :: m₂) = .ok r)
    ∧ (∀ (f : List Char) (ps m₁ m₂ : List (List Char × List Char)) (ke ve : List Char),
        atFree f → (∀ p ∈ ps, wordKey p.1 ∧ atFree p.2) →
        (∀ p ∈ ps.dropLast, hasNonWord p.2) →
        (∀ kv ∈ m₁ ++ (ke, ve) :: m₂, wordKey kv.1 ∧ atFree kv.2) →
        ke ∉ ps.map Prod.fst →
        (∀ p ∈ ps, p.1 ∈ (m₁ ++ m₂).map Prod.fst) →
        safe_substitute (flattenShape f ps) (m₁ ++ (ke, ve) :: m₂) =
          safe_substitute (flattenShape f ps) (m₁ ++ m₂)) := by
  constructor
  · intro t m₁ m₂ ke ve h
    rw [safe_substitute_ok_iff] at h ⊢
    intro x hx
    have hx2 := h hx
    rw [List.mem_toFinset] at hx2 ⊢
    simp only [List.map_append, List.map_cons] at hx2 ⊢
    rcases List.mem_append.mp hx2 with h1 | h1
    · exact List.mem_append_left _ h1
    · exact List.mem_append_right _ (List.mem_cons_of_mem _ h1)
  · intro f ps m₁ m₂ ke ve hf hps hnw hm hkeps hcov
    have hmemsub : ∀ kv ∈ m₁ ++ m₂, kv ∈ m₁ ++ (ke, ve) :: m₂ := by
      intro kv h
      rcases List.mem_append.mp h with h1 | h1
      · exact List.mem_append_left _ h1
      · exact List.mem_append_right _ (List.mem_cons_of_mem _ h1)
    have hcov_ext : ∀ p ∈ ps, p.1 ∈ (m₁ ++ (ke, ve) :: m₂).map Prod.fst := by
      intro p hp
      have h1 := hcov p hp
      simp only [List.map_append, List.map_cons] at h1 ⊢
      rcases List.mem_append.mp h1 with h2 | h2
      · exact List.mem_append_left _ h2
      · exact List.mem_append_right _ (List.mem_cons_of_mem _ h2)
    have hfind : findall (flattenShape f ps) = ps.map Prod.fst := findall_flatten ps f hf hps
    have hsub_core : (findall (flattenShape f ps)).toFinset ⊆
        ((m₁ ++ m₂).map Prod.fst).toFinset := by
      rw [hfind]
      intro x hx
      rw [List.mem_toFinset] at hx
      obtain ⟨p, hp, hpx⟩ := List.mem_map.mp hx
      rw [List.mem_toFinset]
      exact hpx ▸ hcov p hp
    have hsub_ext : (findall (flattenShape f ps)).toFinset ⊆
        ((m₁ ++ (ke, ve) :: m₂).map Prod.fst).toFinset := by
      rw [hfind]
      intro x hx
      rw [List.mem_toFinset] at hx
      obtain ⟨p, hp, hpx⟩ := List.mem_map.mp hx
      rw [List.mem_toFinset]
      exact hpx ▸ hcov_ext p hp
    have hrender : renderShape (m₁ ++ (ke, ve) :: m₂) f ps =
        renderShape (m₁ ++ m₂) f ps := by
      unfold renderShape
      congr 1
      apply renderPairs_congr
      intro p hp
      have hpne : p.1 ≠ ke := fun he => hkeps (he ▸ List.mem_map_of_mem Prod.fst hp)
      exact lookupVal_middle p.1 m₁ m₂ ke ve hpne
    rw [safe_substitute_ok_of_subset _ _ hsub_ext, safe_substitute_ok_of_subset _ _ hsub_core,
      substFold_render (m₁ ++ (ke, ve) :: m₂) f ps hf hps hnw
        (fun kv h => (hm kv h).1)
        (fun kv h => (hm kv (List.dropLast_subset _ h)).2) hcov_ext,
      substFold_render (m₁ ++ m₂) f ps hf hps hnw
        (fun kv h => (hm kv (hmemsub kv h)).1)
        (fun kv h => (hm kv (hmemsub kv (List.dropLast_subset _ h))).2) hcov,
      hrender]

/-- Witness for C9 (amended): adding the harmless extra key `extra="E"` keeps
success and leaves the output unchanged. -/
theorem extra_keys_ignored_amended_witness :
    (∃ r, safe_substitute (("@hostname@:@topic@:@body@").data)
      [(("hostname").data, ("H").data), (("extra").data, ("E").data),
       (("topic").data, ("T").data), (("body").data, ("B").data)] = .ok r)
    ∧ safe_substitute (("@hostname@:@topic@:@body@").data)
        [(("hostname").data, ("H").data), (("extra").data, ("E").data),
         (("topic").data, ("T").data), (("body").data, ("B").data)] =
      safe_substitute (("@hostname@:@topic@:@body@").data)
        [(("hostname").data, ("H").data), (("topic").data, ("T").data),
         (("body").data, ("B").data)] := by
  constructor
  · exact extra_keys_ignored_amended.1 (("@hostname@:@topic@:@body@").data)
      [(("hostname").data, ("H").data)]
      [(("topic").data, ("T").data), (("body").data, ("B").data)]
      (("extra").data) (("E").data) ⟨(("H:T:B").data), by decide⟩
  · have h := extra_keys_ignored_amended.2 []
      [((("hostname").data), ((":").data)), ((("topic").data), ((":").data)),
       ((("body").data), ([] : List Char))]
      [(("hostname").data, ("H").data)]
      [(("topic").data, ("T").data), (("body").data, ("B").data)]
      (("extra").data) (("E").data)
      (by decide) (by decide) (by decide) (by decide) (by decide) (by decide)
    have e1 : flattenShape []
        [((("hostname").data), ((":").data)), ((("topic").data), ((":").data)),
         ((("body").data), ([] : List Char))] = (("@hostname@:@topic@:@body@").data) := by
      decide
    rw [e1] at h
    exact h
